import Mathlib

/-!
Shallow embedding of the zerotable ZQL lexer (`src/zql/parser/lexer.rs`) and of
the storage key codec (`src/keys.rs`), with theorems checking the natural
language specification against the code.

Conventions of the embedding:
* the lexer input is a `List Char` together with the `line`/`col` counters the
  Rust `Lexer` struct carries; `String` payloads of tokens are built with
  `String.mk`;
* Rust `Result<Option<Token>, LexError>` becomes
  `Except LexError (Option (Token × LexState))`, the extra `LexState` making the
  iterator's mutation of `self` explicit;
* the Rust character classes `is_ascii_digit`, `is_alphabetic`,
  `is_alphanumeric`, `is_whitespace` are rendered with `Char.isDigit`,
  `Char.isAlpha`, `Char.isAlphanum`, `Char.isWhitespace`; the Lean versions are
  ASCII-only where Rust consults Unicode tables, which is immaterial for every
  input appearing in the theorems below;
* `keys.rs` works on `&str`/`Vec<u8>`; the embedding works on byte lists
  (`List Nat`), with an explicit `utf8Valid` predicate standing for the
  guarantee that a Rust `&str` is valid UTF-8 and for the `str::from_utf8`
  checks performed by `decode`.
-/

namespace Zql

/-- The `Keyword` enum of the lexer: the closed list of ZQL reserved words. -/
inductive Keyword where
  | And
  | Or
  | Not
  | In
  | Between
  | Like
  | Regex
  | Is
  | Exists
  | Contains
  | ContainsAny
  | ContainsAll
  | Where
  | Order
  | Skip
  | Limit
  | Returning
  | Asc
  | Desc
  | True
  | False
  | Null
  deriving DecidableEq, Repr

/-- `impl TryFrom<&str> for Keyword`: maps an exact spelling to a keyword,
`none` when the string is not a reserved word. -/
def Keyword.tryFrom (s : String) : Option Keyword :=
  if s = "and" then some .And
  else if s = "or" then some .Or
  else if s = "not" then some .Not
  else if s = "in" then some .In
  else if s = "between" then some .Between
  else if s = "like" then some .Like
  else if s = "regex" then some .Regex
  else if s = "is" then some .Is
  else if s = "exists" then some .Exists
  else if s = "contains" then some .Contains
  else if s = "containsAny" then some .ContainsAny
  else if s = "containsAll" then some .ContainsAll
  else if s = "where" then some .Where
  else if s = "order" then some .Order
  else if s = "skip" then some .Skip
  else if s = "limit" then some .Limit
  else if s = "returning" then some .Returning
  else if s = "asc" then some .Asc
  else if s = "desc" then some .Desc
  else if s = "true" then some .True
  else if s = "false" then some .False
  else if s = "null" then some .Null
  else none

/-- `impl fmt::Display for Keyword`. -/
def Keyword.display : Keyword → String
  | .And => "and"
  | .Or => "or"
  | .Not => "not"
  | .In => "in"
  | .Between => "between"
  | .Like => "like"
  | .Regex => "regex"
  | .Is => "is"
  | .Exists => "exists"
  | .Contains => "contains"
  | .ContainsAny => "containsAny"
  | .ContainsAll => "containsAll"
  | .Where => "where"
  | .Order => "order"
  | .Skip => "skip"
  | .Limit => "limit"
  | .Returning => "returning"
  | .Asc => "asc"
  | .Desc => "desc"
  | .True => "true"
  | .False => "false"
  | .Null => "null"

/-- Abbreviation for the payload type of textual tokens; needed because the
constructor `Token.String` shadows the name `String` inside the declaration of
`Token` itself. -/
abbrev Str : Type := String

/-- The `Token` enum of the lexer. -/
inductive Token where
  | Number (s : Str)
  | String (s : Str)
  | Ident (s : Str)
  | Keyword (k : Keyword)
  | Variable (s : Str)
  | ParentRef (s : Str)
  | GrandparentRef (s : Str)
  | Equal
  | NotEqual
  | GreaterThan
  | GreaterThanOrEqual
  | LessThan
  | LessThanOrEqual
  | Plus
  | Minus
  | Asterisk
  | Slash
  | Percent
  | ColonColon
  | Colon
  | OpenParen
  | CloseParen
  | OpenBrace
  | CloseBrace
  | OpenBracket
  | CloseBracket
  | Comma
  | Dot
  deriving DecidableEq, Repr

/-- `impl fmt::Display for Token`. Brace characters are written with `\x7b`
and `\x7d` escapes, quote characters with `\x22`. -/
def Token.display : Token → Str
  | .Number s => s
  | .String s => String.mk ('\x22' :: s.data ++ ['\x22'])
  | .Ident s => s
  | .Keyword k => k.display
  | .Variable s => "$" ++ s
  | .ParentRef s => "^" ++ s
  | .GrandparentRef s => "^^" ++ s
  | .Equal => "="
  | .NotEqual => "!="
  | .GreaterThan => ">"
  | .GreaterThanOrEqual => ">="
  | .LessThan => "<"
  | .LessThanOrEqual => "<="
  | .Plus => "+"
  | .Minus => "-"
  | .Asterisk => "*"
  | .Slash => "/"
  | .Percent => "%"
  | .ColonColon => "::"
  | .Colon => ":"
  | .OpenParen => "("
  | .CloseParen => ")"
  | .OpenBrace => "\x7b"
  | .CloseBrace => "\x7d"
  | .OpenBracket => "["
  | .CloseBracket => "]"
  | .Comma => ","
  | .Dot => "."

/-- `struct LexError(pub String)`: a lexer error is a bare message string. -/
structure LexError where
  msg : String
  deriving DecidableEq, Repr

/-- The mutable state of `struct Lexer`: the unconsumed input (the `Peekable`
char iterator) and the `line`/`col` counters. -/
structure LexState where
  input : List Char
  line : Nat
  col : Nat
  deriving DecidableEq, Repr

/-- Position bookkeeping of `next_char`: a newline bumps `line` and resets
`col` to 1, any other character bumps `col`. -/
def advancePos (l c : Nat) (ch : Char) : Nat × Nat :=
  if ch = '\n' then (l + 1, 1) else (l, c + 1)

/-- `next_char`: consume one character, updating the position. -/
def nextChar (st : LexState) : Option (Char × LexState) :=
  match st.input with
  | [] => none
  | ch :: rest =>
    let pr := advancePos st.line st.col ch
    some (ch, ⟨rest, pr.1, pr.2⟩)

/-- A `self.next_char();` statement whose yielded character is discarded. -/
def consumeOne (st : LexState) : LexState :=
  match nextChar st with
  | none => st
  | some pr => pr.2

/-- Worker for `take_while`: consume the longest prefix satisfying `p`,
returning the consumed characters, then the state left behind. -/
def takeWhileAux (p : Char → Bool) : List Char → Nat → Nat → List Char × LexState
  | [], l, c => ([], ⟨[], l, c⟩)
  | ch :: rest, l, c =>
    if p ch then
      let pr := advancePos l c ch
      let res := takeWhileAux p rest pr.1 pr.2
      (ch :: res.1, res.2)
    else ([], ⟨ch :: rest, l, c⟩)

/-- `take_while`: consume characters while they satisfy `p`, collecting them. -/
def takeWhileSt (p : Char → Bool) (st : LexState) : List Char × LexState :=
  takeWhileAux p st.input st.line st.col

/-- Worker for `skip_whitespace`. `inComment = true` is the inner
`while self.next_if(|c| *c != '\n')` loop of the Rust code; the Rust loop
leaves the terminating newline for the outer whitespace loop to consume, here
the newline is consumed directly with the identical `advancePos` bookkeeping.
`inComment = false` alternates between skipping whitespace and entering `--`
comments, exactly as the outer `loop` does. -/
def skipWsAux : Bool → List Char → Nat → Nat → LexState
  | _, [], l, c => ⟨[], l, c⟩
  | true, ch :: rest, l, c =>
    let pr := advancePos l c ch
    if ch = '\n' then skipWsAux false rest pr.1 pr.2
    else skipWsAux true rest pr.1 pr.2
  | false, ch :: rest, l, c =>
    if ch.isWhitespace then
      let pr := advancePos l c ch
      skipWsAux false rest pr.1 pr.2
    else
      match ch, rest with
      | '-', '-' :: rest2 => skipWsAux true rest2 l (c + 2)
      | _, _ => ⟨ch :: rest, l, c⟩

/-- `skip_whitespace`: eat whitespace and `--` line comments. -/
def skipWhitespace (st : LexState) : LexState :=
  skipWsAux false st.input st.line st.col

/-- The escape table of `scan_string`: the five supported escape sequences
`\x22`(quote) `\x5c`(backslash) `n` `t` `r` and what they denote. -/
def escMap (c : Char) : Option Char :=
  if c = '\x22' then some '\x22'
  else if c = '\x5c' then some '\x5c'
  else if c = 'n' then some '\n'
  else if c = 't' then some '\t'
  else if c = 'r' then some '\r'
  else none

/-- The `loop` of `scan_string`, after the opening quote has been consumed:
`s` is the accumulated payload. -/
def stringLoop (s : List Char) : List Char → Nat → Nat → Except LexError (Option (Token × LexState))
  | [], _, _ => .error ⟨"unterminated string literal"⟩
  | ch :: rest, l, c =>
    let pr := advancePos l c ch
    if ch = '\x22' then .ok (some (.String (String.mk s), ⟨rest, pr.1, pr.2⟩))
    else if ch = '\x5c' then
      match rest with
      | [] => .error ⟨"unterminated string escape"⟩
      | e :: rest2 =>
        let pr2 := advancePos pr.1 pr.2 e
        match escMap e with
        | some m => stringLoop (s ++ [m]) rest2 pr2.1 pr2.2
        | none => .error ⟨"invalid string escape: " ++ String.mk ['\x5c', e]⟩
    else stringLoop (s ++ [ch]) rest pr.1 pr.2

/-- `scan_string`: double-quoted string literal with escape support. -/
def scanString (st : LexState) : Except LexError (Option (Token × LexState)) :=
  let st1 := consumeOne st
  stringLoop [] st1.input st1.line st1.col

/-- `scan_number`: digits, then a fractional part only when a `.` is followed
by a digit (checked with the cloned-iterator two-character lookahead). -/
def scanNumber (st : LexState) : Except LexError (Option (Token × LexState)) :=
  let r1 := takeWhileSt Char.isDigit st
  match r1.2.input with
  | '.' :: d :: rest2 =>
    if d.isDigit then
      let r2 := takeWhileSt Char.isDigit ⟨d :: rest2, r1.2.line, r1.2.col + 1⟩
      .ok (some (.Number (String.mk (r1.1 ++ '.' :: r2.1)), r2.2))
    else .ok (some (.Number (String.mk r1.1), r1.2))
  | _ => .ok (some (.Number (String.mk r1.1), r1.2))

/-- `scan_negative_number`: the `-` has already been consumed by
`scan_symbol`; the payload starts with `-`. -/
def scanNegativeNumber (st : LexState) : Except LexError (Option (Token × LexState)) :=
  let r1 := takeWhileSt Char.isDigit st
  match r1.2.input with
  | '.' :: d :: rest2 =>
    if d.isDigit then
      let r2 := takeWhileSt Char.isDigit ⟨d :: rest2, r1.2.line, r1.2.col + 1⟩
      .ok (some (.Number (String.mk ('-' :: r1.1 ++ '.' :: r2.1)), r2.2))
    else .ok (some (.Number (String.mk ('-' :: r1.1)), r1.2))
  | _ => .ok (some (.Number (String.mk ('-' :: r1.1)), r1.2))

/-- `scan_variable`: `$` followed by a nonempty identifier. -/
def scanVariable (st : LexState) : Except LexError (Option (Token × LexState)) :=
  let st1 := consumeOne st
  let r := takeWhileSt (fun c => c.isAlphanum || c = '_') st1
  if r.1 = [] then .error ⟨"expected variable name after $"⟩
  else .ok (some (.Variable (String.mk r.1), r.2))

/-- `scan_parent_ref`: `^field` or `^^field`, path characters being
alphanumeric, `_`, or `.`. -/
def scanParentRef (st : LexState) : Except LexError (Option (Token × LexState)) :=
  let st1 := consumeOne st
  let isGrandparent : Bool := st1.input.head? == some '^'
  let st2 := if isGrandparent then consumeOne st1 else st1
  let r := takeWhileSt (fun c => c.isAlphanum || c = '_' || c = '.') st2
  if r.1 = [] then .error ⟨"expected field name after ^"⟩
  else if isGrandparent then .ok (some (.GrandparentRef (String.mk r.1), r.2))
  else .ok (some (.ParentRef (String.mk r.1), r.2))

/-- The `loop` of `scan_quoted_ident`, after the opening backtick (written
`\x60`) has been consumed: `name` is the accumulated content. -/
def quotedLoop (name : List Char) : List Char → Nat → Nat → Except LexError (Option (Token × LexState))
  | [], _, _ => .error ⟨"unterminated quoted identifier"⟩
  | ch :: rest, l, c =>
    let pr := advancePos l c ch
    if ch = '\x60' then
      if name = [] then .error ⟨"empty quoted identifier"⟩
      else .ok (some (.Ident (String.mk name), ⟨rest, pr.1, pr.2⟩))
    else quotedLoop (name ++ [ch]) rest pr.1 pr.2

/-- `scan_quoted_ident`: backtick-quoted identifier, the escape hatch for
using reserved words as field names. -/
def scanQuotedIdent (st : LexState) : Except LexError (Option (Token × LexState)) :=
  let st1 := consumeOne st
  quotedLoop [] st1.input st1.line st1.col

/-- The tail of `scan_ident_or_keyword`: a scanned name becomes a `Keyword`
token exactly when `Keyword::try_from` recognises it, an `Ident` otherwise. -/
def identLikeToken (name : String) : Token :=
  match Keyword.tryFrom name with
  | some k => .Keyword k
  | none => .Ident name

/-- `scan_ident_or_keyword`: collect letters, digits and underscores, then
classify the name. -/
def scanIdentOrKeyword (st : LexState) : Except LexError (Option (Token × LexState)) :=
  let r := takeWhileSt (fun c => c.isAlphanum || c = '_') st
  .ok (some (identLikeToken (String.mk r.1), r.2))

/-- The message of the `!`-without-`=` error of `scan_symbol`, built from
`self.line` and `self.col` after the `!` has been consumed (hence `c - 1`). -/
def bangErrMsg (l c : Nat) : String :=
  "unexpected character " ++ String.mk ['\x27', '!', '\x27'] ++ " at line "
    ++ Nat.repr l ++ ", col " ++ Nat.repr (c - 1)
    ++ " (did you mean " ++ String.mk ['\x27', '!', '=', '\x27'] ++ "?)"

/-- The message of the catch-all unexpected-character error of `scan_symbol`. -/
def unexpectedCharMsg (ch : Char) (l c : Nat) : String :=
  "unexpected character " ++ String.mk ['\x27', ch, '\x27'] ++ " at line "
    ++ Nat.repr l ++ ", col " ++ Nat.repr (c - 1)

/-- The second `match` of `scan_symbol`: extend `:` `>` `<` to the
two-character tokens `::` `>=` `<=` when the next character allows, leave any
other token unchanged (`other => other`). -/
def extendSymbol (t : Token) (st : LexState) : Token × LexState :=
  match t, st.input.head? with
  | .Colon, some ':' => (.ColonColon, consumeOne st)
  | .GreaterThan, some '=' => (.GreaterThanOrEqual, consumeOne st)
  | .LessThan, some '=' => (.LessThanOrEqual, consumeOne st)
  | _, _ => (t, st)

/-- The body of `scan_symbol` once `next_char` has yielded `ch`, leaving the
state `st1`: the dispatch on the consumed character, with the early returns for
`!=`/`!` and for negative numbers, and the two-character extension applied to
the fall-through token. -/
def scanSymbolAux (ch : Char) (st1 : LexState) : Except LexError (Option (Token × LexState)) :=
  match ch with
  | ':' => .ok (some (extendSymbol .Colon st1))
  | '(' => .ok (some (extendSymbol .OpenParen st1))
  | ')' => .ok (some (extendSymbol .CloseParen st1))
  | '\x7b' => .ok (some (extendSymbol .OpenBrace st1))
  | '\x7d' => .ok (some (extendSymbol .CloseBrace st1))
  | '[' => .ok (some (extendSymbol .OpenBracket st1))
  | ']' => .ok (some (extendSymbol .CloseBracket st1))
  | ',' => .ok (some (extendSymbol .Comma st1))
  | '.' => .ok (some (extendSymbol .Dot st1))
  | '=' => .ok (some (extendSymbol .Equal st1))
  | '>' => .ok (some (extendSymbol .GreaterThan st1))
  | '<' => .ok (some (extendSymbol .LessThan st1))
  | '!' =>
    if st1.input.head? = some '=' then .ok (some (.NotEqual, consumeOne st1))
    else .error ⟨bangErrMsg st1.line st1.col⟩
  | '+' => .ok (some (extendSymbol .Plus st1))
  | '*' => .ok (some (extendSymbol .Asterisk st1))
  | '/' => .ok (some (extendSymbol .Slash st1))
  | '%' => .ok (some (extendSymbol .Percent st1))
  | '-' =>
    if (st1.input.head?.map Char.isDigit).getD false then scanNegativeNumber st1
    else .ok (some (extendSymbol .Minus st1))
  | _ => .error ⟨unexpectedCharMsg ch st1.line st1.col⟩

/-- `scan_symbol`: consume one character (defensively returning `Ok(None)` at
end of input, as the Rust code does), then dispatch on it. -/
def scanSymbol (st : LexState) : Except LexError (Option (Token × LexState)) :=
  match nextChar st with
  | none => .ok none
  | some (ch, st1) => scanSymbolAux ch st1

/-- `scan`: skip whitespace, then dispatch on the next character. -/
def scan (st : LexState) : Except LexError (Option (Token × LexState)) :=
  let st1 := skipWhitespace st
  match st1.input with
  | [] => .ok none
  | c :: _ =>
    if c = '\x22' then scanString st1
    else if c = '$' then scanVariable st1
    else if c = '^' then scanParentRef st1
    else if c = '\x60' then scanQuotedIdent st1
    else if c.isDigit then scanNumber st1
    else if c.isAlpha || c = '_' then scanIdentOrKeyword st1
    else scanSymbol st1

/-- Fuel-indexed driver of the lexer loop: collect `scan` results until the
end of input or the first error, exactly the behaviour of collecting the
`Iterator for Lexer` into a `Result<Vec<Token>, LexError>`. The fuel argument
only makes the recursion structural; `lexPump_congr` below proves any fuel
above the input length gives the same answer, so the `0` case is unreachable
from `lexAll`. -/
def lexPump : Nat → LexState → Except LexError (List Token)
  | 0, _ => .ok []
  | fuel + 1, st =>
    match scan st with
    | .error e => .error e
    | .ok none => .ok []
    | .ok (some (t, st')) =>
      match lexPump fuel st' with
      | .error e => .error e
      | .ok ts => .ok (t :: ts)

/-- Run the lexer to completion on a state. -/
def lexAll (st : LexState) : Except LexError (List Token) :=
  lexPump (st.input.length + 1) st

/-- `Lexer::new(input)` followed by collecting the token iterator. -/
def tokenize (text : String) : Except LexError (List Token) :=
  lexAll ⟨text.data, 1, 1⟩

/-- Observation helper: the tokens with no textual payload, i.e. the
punctuation/operator tokens together with keyword tokens. -/
def Token.isPunctOrKeyword : Token → Bool
  | .Number _ => false
  | .String _ => false
  | .Ident _ => false
  | .Variable _ => false
  | .ParentRef _ => false
  | .GrandparentRef _ => false
  | _ => true

/-- Observation helper: is this token a `Keyword`? -/
def Token.isKeywordTok : Token → Bool
  | .Keyword _ => true
  | _ => false

/-- Transcription of the specification's enumeration of the 22 reserved
spellings, used to compare `Keyword.tryFrom` against the spec's list. -/
def specKeywordSpellings : List String :=
  ["and", "or", "not", "in", "between", "like", "regex", "is", "exists",
   "contains", "containsAny", "containsAll", "where", "order", "skip",
   "limit", "returning", "asc", "desc", "true", "false", "null"]

/-- Observation helper: does `hay` start with `needle`? -/
def listStartsWith : List Char → List Char → Bool
  | _, [] => true
  | [], _ :: _ => false
  | a :: as, b :: bs => a == b && listStartsWith as bs

/-- Observation helper: does `needle` occur contiguously inside `hay`? Used to
state whether an error message mentions a piece of text. -/
def hasSubstr : List Char → List Char → Bool
  | [], needle => listStartsWith [] needle
  | hay@(_ :: t), needle => listStartsWith hay needle || hasSubstr t needle

end Zql

namespace Keys

/-- `MAX_ID_LENGTH`: maximum length (bytes) for collection and document IDs. -/
def maxIdLength : Nat := 1500

/-- `SEPARATOR`: the `0x00` byte between collection ID and document ID. -/
def separator : Nat := 0

/-- The `KeyError` enum of `keys.rs`. -/
inductive KeyError where
  | EmptyId
  | ContainsNullByte
  | ContainsSlash
  | TooLong (len max : Nat)
  deriving DecidableEq, Repr

/-- `validate`: a collection or document ID (as its UTF-8 bytes) is rejected
when empty, containing the separator byte, containing `/` (byte 47 — in UTF-8
the `/` character appears exactly as the single byte 47), or longer than
`maxIdLength` bytes. -/
def validate (id : List Nat) : Except KeyError Unit :=
  if id = [] then .error .EmptyId
  else if separator ∈ id then .error .ContainsNullByte
  else if 47 ∈ id then .error .ContainsSlash
  else if id.length > maxIdLength then .error (.TooLong id.length maxIdLength)
  else .ok ()

/-- Is this byte a UTF-8 continuation byte (`10xxxxxx`)? -/
def isUtf8Cont (b : Nat) : Bool := 0x80 ≤ b && b ≤ 0xBF

/-- Validity of a byte list as UTF-8, as checked by `std::str::from_utf8`
(RFC 3629: no overlong forms, no surrogates, at most `U+10FFFF`). An id held
in a Rust `&str` satisfies this by construction. -/
def utf8Valid : List Nat → Bool
  | [] => true
  | b :: rest =>
    if b ≤ 0x7F then utf8Valid rest
    else if 0xC2 ≤ b && b ≤ 0xDF then
      match rest with
      | b1 :: rest1 => isUtf8Cont b1 && utf8Valid rest1
      | _ => false
    else if b = 0xE0 then
      match rest with
      | b1 :: b2 :: rest1 =>
        (0xA0 ≤ b1 && b1 ≤ 0xBF) && (isUtf8Cont b2 && utf8Valid rest1)
      | _ => false
    else if (0xE1 ≤ b && b ≤ 0xEC) || (b = 0xEE || b = 0xEF) then
      match rest with
      | b1 :: b2 :: rest1 => isUtf8Cont b1 && (isUtf8Cont b2 && utf8Valid rest1)
      | _ => false
    else if b = 0xED then
      match rest with
      | b1 :: b2 :: rest1 =>
        (0x80 ≤ b1 && b1 ≤ 0x9F) && (isUtf8Cont b2 && utf8Valid rest1)
      | _ => false
    else if b = 0xF0 then
      match rest with
      | b1 :: b2 :: b3 :: rest1 =>
        (0x90 ≤ b1 && b1 ≤ 0xBF) && (isUtf8Cont b2 && (isUtf8Cont b3 && utf8Valid rest1))
      | _ => false
    else if 0xF1 ≤ b && b ≤ 0xF3 then
      match rest with
      | b1 :: b2 :: b3 :: rest1 =>
        isUtf8Cont b1 && (isUtf8Cont b2 && (isUtf8Cont b3 && utf8Valid rest1))
      | _ => false
    else if b = 0xF4 then
      match rest with
      | b1 :: b2 :: b3 :: rest1 =>
        (0x80 ≤ b1 && b1 ≤ 0x8F) && (isUtf8Cont b2 && (isUtf8Cont b3 && utf8Valid rest1))
      | _ => false
    else false

/-- `key.iter().position(|&b| b == SEPARATOR)`: index of the first separator
byte. -/
def position0 : List Nat → Option Nat
  | [] => none
  | b :: rest => if b = separator then some 0 else (position0 rest).map (· + 1)

/-- `encode`: validate both ids, then build `collection_id ++ 0x00 ++ doc_id`. -/
def encode (collectionId docId : List Nat) : Except KeyError (List Nat) :=
  match validate collectionId with
  | .error e => .error e
  | .ok _ =>
    match validate docId with
    | .error e => .error e
    | .ok _ => .ok (collectionId ++ separator :: docId)

/-- `decode`: split at the first separator byte, then check both halves are
valid UTF-8 (the `str::from_utf8` calls); `none` when there is no separator or
a half is not valid UTF-8. -/
def decode (key : List Nat) : Option (List Nat × List Nat) :=
  match position0 key with
  | none => none
  | some pos =>
    let cid := key.take pos
    let did := key.drop (pos + 1)
    if utf8Valid cid then
      if utf8Valid did then some (cid, did) else none
    else none

end Keys


namespace Zql

/-! ### Step lemmas for `skipWsAux` -/

theorem skipWsAux_false_ws (ch : Char) (rest : List Char) (l c : Nat) (h : ch.isWhitespace = true) :
    skipWsAux false (ch :: rest) l c =
      skipWsAux false rest (advancePos l c ch).1 (advancePos l c ch).2 := by
  rw [skipWsAux.eq_def]
  simp [h]

theorem skipWsAux_comment (rest2 : List Char) (l c : Nat) :
    skipWsAux false ('-' :: '-' :: rest2) l c = skipWsAux true rest2 l (c + 2) := by
  have hw : ('-' : Char).isWhitespace = false := by decide
  simp [skipWsAux.eq_3, hw]

theorem advancePos_nl (l c : Nat) : advancePos l c '\n' = (l + 1, 1) := by
  simp [advancePos]

theorem advancePos_other (l c : Nat) (ch : Char) (h : ch ≠ '\n') :
    advancePos l c ch = (l, c + 1) := by
  simp [advancePos, h]

theorem skipWsAux_true_nl (rest : List Char) (l c : Nat) :
    skipWsAux true ('\n' :: rest) l c = skipWsAux false rest (l + 1) 1 := by
  rw [skipWsAux.eq_2]
  simp [advancePos]

theorem skipWsAux_true_other (ch : Char) (rest : List Char) (l c : Nat) (h : ch ≠ '\n') :
    skipWsAux true (ch :: rest) l c = skipWsAux true rest l (c + 1) := by
  rw [skipWsAux.eq_2]
  simp [h, advancePos]

theorem skipWsAux_stop (ch : Char) (rest : List Char) (l c : Nat)
    (h1 : ch.isWhitespace = false)
    (h2 : ∀ rest2, ch = '-' → rest = '-' :: rest2 → False) :
    skipWsAux false (ch :: rest) l c = ⟨ch :: rest, l, c⟩ := by
  rw [skipWsAux.eq_def]
  simp only [h1, Bool.false_eq_true, if_false]

theorem skipWsAux_stop_of_ne (ch : Char) (rest : List Char) (l c : Nat)
    (h1 : ch.isWhitespace = false) (h2 : ch ≠ '-') :
    skipWsAux false (ch :: rest) l c = ⟨ch :: rest, l, c⟩ :=
  skipWsAux_stop ch rest l c h1 (fun _ he _ => h2 he)

/-! ### Consumption bookkeeping lemmas -/

theorem takeWhileAux_length_eq (p : Char → Bool) (xs : List Char) : ∀ l c,
    (takeWhileAux p xs l c).1.length + (takeWhileAux p xs l c).2.input.length = xs.length := by
  induction xs with
  | nil => intro l c; simp [takeWhileAux]
  | cons ch rest ih =>
    intro l c
    by_cases h : p ch
    · simp only [takeWhileAux, h, if_true, List.length_cons]
      have := ih (advancePos l c ch).1 (advancePos l c ch).2
      omega
    · simp [takeWhileAux, h]

theorem takeWhileAux_state_length (p : Char → Bool) (xs : List Char) (l c : Nat) :
    (takeWhileAux p xs l c).2.input.length ≤ xs.length := by
  have := takeWhileAux_length_eq p xs l c
  omega

theorem takeWhileAux_cons_pos (p : Char → Bool) (ch : Char) (rest : List Char) (l c : Nat)
    (h : p ch = true) :
    takeWhileAux p (ch :: rest) l c =
      (ch :: (takeWhileAux p rest (advancePos l c ch).1 (advancePos l c ch).2).1,
        (takeWhileAux p rest (advancePos l c ch).1 (advancePos l c ch).2).2) := by
  simp [takeWhileAux, h]

theorem takeWhileAux_strict (p : Char → Bool) (ch : Char) (rest : List Char) (l c : Nat)
    (h : p ch = true) :
    (takeWhileAux p (ch :: rest) l c).2.input.length < (ch :: rest).length := by
  rw [takeWhileAux_cons_pos p ch rest l c h]
  have := takeWhileAux_state_length p rest (advancePos l c ch).1 (advancePos l c ch).2
  simp only [List.length_cons]
  omega

theorem consumeOne_length (st : LexState) : (consumeOne st).input.length ≤ st.input.length := by
  obtain ⟨xs, l, c⟩ := st
  cases xs <;> simp [consumeOne, nextChar]

theorem consumeOne_cons (ch : Char) (rest : List Char) (l c : Nat) :
    consumeOne ⟨ch :: rest, l, c⟩ = ⟨rest, (advancePos l c ch).1, (advancePos l c ch).2⟩ := rfl

theorem skipWsAux_length (mode : Bool) (xs : List Char) (l c : Nat) :
    (skipWsAux mode xs l c).input.length ≤ xs.length := by
  induction mode, xs, l, c using skipWsAux.induct with
  | case1 mode l c => simp [skipWsAux]
  | case2 rest l c pr ih =>
    have hpr : pr = advancePos l c '\n' := rfl
    rw [hpr, advancePos_nl] at ih
    have ih2 : (skipWsAux false rest (l + 1) 1).input.length ≤ rest.length := by
      simpa using ih
    rw [skipWsAux_true_nl]
    simp only [List.length_cons]
    omega
  | case3 ch rest l c pr h ih =>
    have hpr : pr = advancePos l c ch := rfl
    rw [hpr, advancePos_other l c ch h] at ih
    have ih2 : (skipWsAux true rest l (c + 1)).input.length ≤ rest.length := by
      simpa using ih
    rw [skipWsAux_true_other ch rest l c h]
    simp only [List.length_cons]
    omega
  | case4 ch rest l c h pr ih =>
    have hpr : pr = advancePos l c ch := rfl
    rw [hpr] at ih
    rw [skipWsAux_false_ws ch rest l c h]
    simp only [List.length_cons]
    omega
  | case5 l c rest2 h ih =>
    rw [skipWsAux_comment rest2 l c]
    simp only [List.length_cons]
    omega
  | case6 ch rest l c h1 h2 =>
    have h1' : ch.isWhitespace = false := by
      cases hh : ch.isWhitespace
      · rfl
      · exact absurd hh h1
    rw [skipWsAux_stop ch rest l c h1' h2]

theorem skipWhitespace_length (st : LexState) :
    (skipWhitespace st).input.length ≤ st.input.length :=
  skipWsAux_length false st.input st.line st.col

end Zql

namespace Zql

theorem quotedLoop_ok_length (name xs : List Char) (l c : Nat) :
    ∀ t st', quotedLoop name xs l c = .ok (some (t, st')) → st'.input.length ≤ xs.length := by
  induction name, xs, l, c using quotedLoop.induct with
  | case1 name l c =>
    intro t st' h
    rw [quotedLoop.eq_1] at h
    exact absurd h (by simp)
  | case2 rest l c =>
    intro t st' h
    rw [quotedLoop.eq_2] at h
    simp at h
  | case3 name rest l c hname =>
    intro t st' h
    rw [quotedLoop.eq_2] at h
    simp [hname] at h
    obtain ⟨-, h2⟩ := h
    rw [← h2]
    simp
  | case4 name ch rest l c pr hch ih =>
    intro t st' h
    rw [quotedLoop.eq_2] at h
    simp only [hch, if_neg] at h
    have := ih t st' h
    simp only [List.length_cons]
    omega

theorem stringLoop_ok_length (s xs : List Char) (l c : Nat) :
    ∀ t st', stringLoop s xs l c = .ok (some (t, st')) → st'.input.length ≤ xs.length := by
  induction s, xs, l, c using stringLoop.induct with
  | case1 s l c =>
    intro t st' h
    rw [stringLoop.eq_1] at h
    exact absurd h (by simp)
  | case2 s rest l c =>
    intro t st' h
    cases rest with
    | nil =>
      rw [stringLoop.eq_2] at h
      simp at h
      obtain ⟨-, h2⟩ := h
      rw [← h2]
      simp
    | cons ch2 rest2 =>
      rw [stringLoop.eq_3] at h
      simp at h
      obtain ⟨-, h2⟩ := h
      rw [← h2]
      simp
  | case3 s l c =>
    intro t st' h
    rw [stringLoop.eq_2] at h
    simp at h
  | case4 s l c ch rest m hesc pr hne pr2 ih =>
    intro t st' h
    rw [stringLoop.eq_3] at h
    simp only [hne, if_neg, hesc] at h
    have := ih t st' h
    simp only [List.length_cons]
    omega
  | case5 s l c ch rest hesc hne =>
    intro t st' h
    rw [stringLoop.eq_3] at h
    simp only [hne, if_neg, hesc] at h
    simp at h
  | case6 s ch rest l c pr h1 h2 ih =>
    intro t st' h
    cases rest with
    | nil =>
      rw [stringLoop.eq_2] at h
      simp only [h1, h2, if_neg] at h
      have := ih t st' h
      simp only [List.length_cons]
      omega
    | cons ch2 rest2 =>
      rw [stringLoop.eq_3] at h
      simp only [h1, h2, if_neg] at h
      have := ih t st' h
      simp only [List.length_cons] at this ⊢
      omega

end Zql

namespace Zql

theorem scanString_decr (st : LexState) (t : Token) (st' : LexState)
    (h : scanString st = .ok (some (t, st'))) : st'.input.length < st.input.length := by
  obtain ⟨xs, l, c⟩ := st
  cases xs with
  | nil => simp [scanString, consumeOne, nextChar, stringLoop.eq_1] at h
  | cons ch rest =>
    simp only [scanString, consumeOne_cons] at h
    have := stringLoop_ok_length [] rest (advancePos l c ch).1 (advancePos l c ch).2 t st' h
    simp only [List.length_cons]
    omega

theorem scanQuotedIdent_decr (st : LexState) (t : Token) (st' : LexState)
    (h : scanQuotedIdent st = .ok (some (t, st'))) : st'.input.length < st.input.length := by
  obtain ⟨xs, l, c⟩ := st
  cases xs with
  | nil => simp [scanQuotedIdent, consumeOne, nextChar, quotedLoop.eq_1] at h
  | cons ch rest =>
    simp only [scanQuotedIdent, consumeOne_cons] at h
    have := quotedLoop_ok_length [] rest (advancePos l c ch).1 (advancePos l c ch).2 t st' h
    simp only [List.length_cons]
    omega

theorem scanVariable_decr (st : LexState) (t : Token) (st' : LexState)
    (h : scanVariable st = .ok (some (t, st'))) : st'.input.length < st.input.length := by
  obtain ⟨xs, l, c⟩ := st
  cases xs with
  | nil => simp [scanVariable, consumeOne, nextChar, takeWhileSt, takeWhileAux] at h
  | cons ch rest =>
    simp only [scanVariable, consumeOne_cons, takeWhileSt] at h
    split at h
    · exact absurd h (by simp)
    · simp only [Except.ok.injEq, Option.some.injEq, Prod.mk.injEq] at h
      obtain ⟨-, h2⟩ := h
      rw [← h2]
      have := takeWhileAux_state_length (fun c => c.isAlphanum || c = '_') rest
        (advancePos l c ch).1 (advancePos l c ch).2
      simp only [List.length_cons]
      omega

theorem scanParentRef_decr (st : LexState) (t : Token) (st' : LexState)
    (h : scanParentRef st = .ok (some (t, st'))) : st'.input.length < st.input.length := by
  obtain ⟨xs, l, c⟩ := st
  cases xs with
  | nil => simp [scanParentRef, consumeOne, nextChar, takeWhileSt, takeWhileAux] at h
  | cons ch rest =>
    simp only [scanParentRef, consumeOne_cons, takeWhileSt] at h
    set st2 := if (⟨rest, (advancePos l c ch).1, (advancePos l c ch).2⟩ : LexState).input.head? == some '^' then
        consumeOne ⟨rest, (advancePos l c ch).1, (advancePos l c ch).2⟩
      else (⟨rest, (advancePos l c ch).1, (advancePos l c ch).2⟩ : LexState) with hst2
    have hlen2 : st2.input.length ≤ rest.length := by
      rw [hst2]
      split
      · exact le_trans (consumeOne_length _) (by simp)
      · simp
    split at h
    · exact absurd h (by simp)
    · split at h <;>
      · simp only [Except.ok.injEq, Option.some.injEq, Prod.mk.injEq] at h
        obtain ⟨-, h2⟩ := h
        rw [← h2]
        have := takeWhileAux_state_length (fun c => c.isAlphanum || c = '_' || c = '.')
          st2.input st2.line st2.col
        simp only [List.length_cons]
        omega

end Zql

namespace Zql

theorem scanNegativeNumber_len (st : LexState) (t : Token) (st' : LexState)
    (h : scanNegativeNumber st = .ok (some (t, st'))) : st'.input.length ≤ st.input.length := by
  obtain ⟨xs, l, c⟩ := st
  show st'.input.length ≤ xs.length
  simp only [scanNegativeNumber, takeWhileSt] at h
  have h1 := takeWhileAux_state_length Char.isDigit xs l c
  split at h
  · rename_i d rest2 heq
    split at h
    · simp only [Except.ok.injEq, Option.some.injEq, Prod.mk.injEq] at h
      obtain ⟨-, h2⟩ := h
      rw [← h2]
      have h3 := takeWhileAux_state_length Char.isDigit (d :: rest2)
        (takeWhileAux Char.isDigit xs l c).2.line ((takeWhileAux Char.isDigit xs l c).2.col + 1)
      rw [heq] at h1
      simp only [List.length_cons] at h1 h3
      omega
    · simp only [Except.ok.injEq, Option.some.injEq, Prod.mk.injEq] at h
      obtain ⟨-, h2⟩ := h
      rw [← h2]
      exact h1
  · simp only [Except.ok.injEq, Option.some.injEq, Prod.mk.injEq] at h
    obtain ⟨-, h2⟩ := h
    rw [← h2]
    exact h1

theorem scanNumber_decr (ch : Char) (rest : List Char) (l c : Nat) (t : Token) (st' : LexState)
    (hd : ch.isDigit = true)
    (h : scanNumber ⟨ch :: rest, l, c⟩ = .ok (some (t, st'))) :
    st'.input.length < rest.length + 1 := by
  simp only [scanNumber, takeWhileSt] at h
  have h1 := takeWhileAux_strict Char.isDigit ch rest l c hd
  simp only [List.length_cons] at h1
  split at h
  · rename_i d rest2 heq
    split at h
    · simp only [Except.ok.injEq, Option.some.injEq, Prod.mk.injEq] at h
      obtain ⟨-, h2⟩ := h
      rw [← h2]
      have h3 := takeWhileAux_state_length Char.isDigit (d :: rest2)
        (takeWhileAux Char.isDigit (ch :: rest) l c).2.line
        ((takeWhileAux Char.isDigit (ch :: rest) l c).2.col + 1)
      rw [heq] at h1
      simp only [List.length_cons] at h1 h3
      omega
    · simp only [Except.ok.injEq, Option.some.injEq, Prod.mk.injEq] at h
      obtain ⟨-, h2⟩ := h
      rw [← h2]
      exact h1
  · simp only [Except.ok.injEq, Option.some.injEq, Prod.mk.injEq] at h
    obtain ⟨-, h2⟩ := h
    rw [← h2]
    exact h1

theorem scanIdentOrKeyword_decr (ch : Char) (rest : List Char) (l c : Nat) (t : Token) (st' : LexState)
    (hd : (ch.isAlphanum || ch = '_') = true)
    (h : scanIdentOrKeyword ⟨ch :: rest, l, c⟩ = .ok (some (t, st'))) :
    st'.input.length < rest.length + 1 := by
  simp only [scanIdentOrKeyword, takeWhileSt] at h
  simp only [Except.ok.injEq, Option.some.injEq, Prod.mk.injEq] at h
  obtain ⟨-, h2⟩ := h
  rw [← h2]
  have h1 := takeWhileAux_strict (fun c => c.isAlphanum || c = '_') ch rest l c hd
  simp only [List.length_cons] at h1
  exact h1

theorem extendSymbol_length (t : Token) (st : LexState) :
    (extendSymbol t st).2.input.length ≤ st.input.length := by
  rw [extendSymbol.eq_def]
  split <;> first
  | exact consumeOne_length st
  | exact le_refl _

theorem scanSymbol_decr (st : LexState) (t : Token) (st' : LexState)
    (h : scanSymbol st = .ok (some (t, st'))) : st'.input.length < st.input.length := by
  obtain ⟨xs, l, c⟩ := st
  cases xs with
  | nil => simp [scanSymbol, nextChar] at h
  | cons ch rest =>
    have hstep : scanSymbol ⟨ch :: rest, l, c⟩ =
        scanSymbolAux ch ⟨rest, (advancePos l c ch).1, (advancePos l c ch).2⟩ := rfl
    rw [hstep] at h
    rw [scanSymbolAux.eq_def] at h
    simp only [List.length_cons]
    have hrest : ∀ tok : Token,
        (Except.ok (some (extendSymbol tok ⟨rest, (advancePos l c ch).1, (advancePos l c ch).2⟩)) :
            Except LexError (Option (Token × LexState))) =
          .ok (some (t, st')) → st'.input.length < rest.length + 1 := by
      intro tok hh
      simp only [Except.ok.injEq, Option.some.injEq] at hh
      have h2 := congrArg Prod.snd hh
      simp only at h2
      rw [← h2]
      have := extendSymbol_length tok ⟨rest, (advancePos l c ch).1, (advancePos l c ch).2⟩
      simp at this
      omega
    split at h
    · exact hrest _ h
    · exact hrest _ h
    · exact hrest _ h
    · exact hrest _ h
    · exact hrest _ h
    · exact hrest _ h
    · exact hrest _ h
    · exact hrest _ h
    · exact hrest _ h
    · exact hrest _ h
    · exact hrest _ h
    · exact hrest _ h
    · -- the `!` case: split the inner `if` on the lookahead for `=`
      split at h
      · simp only [Except.ok.injEq, Option.some.injEq, Prod.mk.injEq] at h
        obtain ⟨-, h2⟩ := h
        rw [← h2]
        have := consumeOne_length (⟨rest, (advancePos l c '!').1, (advancePos l c '!').2⟩ : LexState)
        simp at this
        omega
      · exact absurd h (by simp)
    · exact hrest _ h
    · exact hrest _ h
    · exact hrest _ h
    · exact hrest _ h
    · -- the `-` case: either a negative number or a bare minus
      split at h
      · have := scanNegativeNumber_len ⟨rest, (advancePos l c '-').1, (advancePos l c '-').2⟩ t st' h
        simp at this
        omega
      · exact hrest _ h
    · exact absurd h (by simp)

end Zql

namespace Zql

theorem scanNumber_decr2 (st : LexState) (ch : Char) (rest : List Char) (t : Token) (st' : LexState)
    (heq : st.input = ch :: rest) (hd : ch.isDigit = true)
    (h : scanNumber st = .ok (some (t, st'))) : st'.input.length < st.input.length := by
  obtain ⟨xs, l, c⟩ := st
  simp only at heq
  subst heq
  have := scanNumber_decr ch rest l c t st' hd h
  simpa using this

theorem scanIdentOrKeyword_decr2 (st : LexState) (ch : Char) (rest : List Char) (t : Token) (st' : LexState)
    (heq : st.input = ch :: rest) (hd : (ch.isAlphanum || ch = '_') = true)
    (h : scanIdentOrKeyword st = .ok (some (t, st'))) : st'.input.length < st.input.length := by
  obtain ⟨xs, l, c⟩ := st
  simp only at heq
  subst heq
  have := scanIdentOrKeyword_decr ch rest l c t st' hd h
  simpa using this

theorem scan_decreases (st : LexState) (t : Token) (st' : LexState)
    (h : scan st = .ok (some (t, st'))) : st'.input.length < st.input.length := by
  have hlen := skipWhitespace_length st
  replace h : (match (skipWhitespace st).input with
      | [] => (Except.ok none : Except LexError (Option (Token × LexState)))
      | c :: _ =>
        if c = '\x22' then scanString (skipWhitespace st)
        else if c = '$' then scanVariable (skipWhitespace st)
        else if c = '^' then scanParentRef (skipWhitespace st)
        else if c = '\x60' then scanQuotedIdent (skipWhitespace st)
        else if c.isDigit then scanNumber (skipWhitespace st)
        else if c.isAlpha || c = '_' then scanIdentOrKeyword (skipWhitespace st)
        else scanSymbol (skipWhitespace st)) = .ok (some (t, st')) := h
  split at h
  · exact absurd h (by simp)
  · rename_i c rest heq
    split_ifs at h with h1 h2 h3 h4 h5 h6
    · exact lt_of_lt_of_le (scanString_decr _ _ _ h) hlen
    · exact lt_of_lt_of_le (scanVariable_decr _ _ _ h) hlen
    · exact lt_of_lt_of_le (scanParentRef_decr _ _ _ h) hlen
    · exact lt_of_lt_of_le (scanQuotedIdent_decr _ _ _ h) hlen
    · exact lt_of_lt_of_le (scanNumber_decr2 _ c rest t st' heq h5 h) hlen
    · have hd : (c.isAlphanum || c = '_') = true := by
        cases ha : c.isAlpha with
        | false =>
          rw [ha] at h6
          simp only [Bool.false_or] at h6
          simp [h6]
        | true => simp [Char.isAlphanum, ha]
      exact lt_of_lt_of_le (scanIdentOrKeyword_decr2 _ c rest t st' heq hd h) hlen
    · exact lt_of_lt_of_le (scanSymbol_decr _ _ _ h) hlen

theorem lexPump_congr (f1 : Nat) : ∀ (f2 : Nat) (st : LexState),
    st.input.length < f1 → st.input.length < f2 → lexPump f1 st = lexPump f2 st := by
  induction f1 with
  | zero => intro f2 st h1 h2; omega
  | succ f1 ih =>
    intro f2 st h1 h2
    cases f2 with
    | zero => omega
    | succ f2 =>
      show (match scan st with
        | .error e => (.error e : Except LexError (List Token))
        | .ok none => .ok []
        | .ok (some (t, st')) =>
          match lexPump f1 st' with
          | .error e => .error e
          | .ok ts => .ok (t :: ts)) =
        (match scan st with
        | .error e => .error e
        | .ok none => .ok []
        | .ok (some (t, st')) =>
          match lexPump f2 st' with
          | .error e => .error e
          | .ok ts => .ok (t :: ts))
      cases hscan : scan st with
      | error e => rfl
      | ok r =>
        cases r with
        | none => rfl
        | some pr =>
          obtain ⟨t, st'⟩ := pr
          have hdec := scan_decreases st t st' hscan
          show (match lexPump f1 st' with
            | .error e => (.error e : Except LexError (List Token))
            | .ok ts => .ok (t :: ts)) =
            (match lexPump f2 st' with
            | .error e => .error e
            | .ok ts => .ok (t :: ts))
          rw [ih f2 st' (by omega) (by omega)]

theorem lexAll_unfold (st : LexState) :
    lexAll st =
      match scan st with
      | .error e => .error e
      | .ok none => .ok []
      | .ok (some (t, st')) =>
        match lexAll st' with
        | .error e => .error e
        | .ok ts => .ok (t :: ts) := by
  show (match scan st with
    | .error e => (.error e : Except LexError (List Token))
    | .ok none => .ok []
    | .ok (some (t, st')) =>
      match lexPump st.input.length st' with
      | .error e => .error e
      | .ok ts => .ok (t :: ts)) = _
  cases hscan : scan st with
  | error e => rfl
  | ok r =>
    cases r with
    | none => rfl
    | some pr =>
      obtain ⟨t, st'⟩ := pr
      have hdec := scan_decreases st t st' hscan
      show (match lexPump st.input.length st' with
        | .error e => (.error e : Except LexError (List Token))
        | .ok ts => .ok (t :: ts)) =
        (match lexAll st' with
        | .error e => .error e
        | .ok ts => .ok (t :: ts))
      rw [lexAll, lexPump_congr (st.input.length) (st'.input.length + 1) st' (by omega) (by omega)]

theorem lexAll_nil (l c : Nat) : lexAll ⟨[], l, c⟩ = .ok [] := rfl

end Zql

namespace Zql

/-- C2: a `-` immediately followed by a digit is folded into a single negative
number token at the lexer level: `tokenize "a-1"` is exactly
`[Ident "a", Number "-1"]`, while `tokenize "a - 1"` is exactly
`[Ident "a", Minus, Number "1"]`. -/
theorem c2_minus_digit_folding :
    tokenize "a-1" = .ok [.Ident "a", .Number "-1"] ∧
    tokenize "a - 1" = .ok [.Ident "a", .Minus, .Number "1"] :=
  ⟨rfl, rfl⟩

/-- C3: a decimal point is consumed into a number token only when the
character after the dot is a digit: `tokenize "10.field"` is exactly
`[Number "10", Dot, Ident "field"]` and `tokenize "10.5"` is exactly
`[Number "10.5"]`. -/
theorem c3_decimal_point_lookahead :
    tokenize "10.field" = .ok [.Number "10", .Dot, .Ident "field"] ∧
    tokenize "10.5" = .ok [.Number "10.5"] :=
  ⟨rfl, rfl⟩

/-- C8: tokenizing the one-character input `!` is a `LexError` (with the
`scan_symbol` message rendered at line 1, column 1), while tokenizing `!=`
yields exactly `[NotEqual]`. -/
theorem c8_bang_alone_is_error :
    tokenize "!" = .error ⟨bangErrMsg 1 2⟩ ∧
    tokenize "!=" = .ok [.NotEqual] :=
  ⟨rfl, rfl⟩

end Zql

namespace Keys

theorem validate_ok_facts (id : List Nat) (h : validate id = .ok ()) :
    id ≠ [] ∧ separator ∉ id := by
  unfold validate at h
  split_ifs at h with h1 h2 h3 h4
  exact ⟨h1, h2⟩

theorem position0_append (c d : List Nat) (hc : separator ∉ c) :
    position0 (c ++ separator :: d) = some c.length := by
  induction c with
  | nil => simp [position0]
  | cons b rest ih =>
    have hb : ¬b = separator := fun hb => hc (by simp [hb])
    have hrest : separator ∉ rest := fun hr => hc (by simp [hr])
    simp only [List.cons_append, position0, hb, if_false, List.append_eq]
    rw [ih hrest]
    simp

/-- C9: for every pair of ids that both pass validation, `encode` succeeds
producing `collection_id ++ 0x00 ++ doc_id`, and `decode` of that key returns
exactly the original pair. The `utf8Valid` hypotheses record that the ids
come from Rust `&str` values, which are valid UTF-8 by construction. -/
theorem c9_key_codec_roundtrip (c d : List Nat)
    (hc : validate c = .ok ()) (hd : validate d = .ok ())
    (hcu : utf8Valid c = true) (hdu : utf8Valid d = true) :
    encode c d = .ok (c ++ separator :: d) ∧
    decode (c ++ separator :: d) = some (c, d) := by
  obtain ⟨hcne, hcsep⟩ := validate_ok_facts c hc
  constructor
  · rw [encode, hc, hd]
  · rw [decode, position0_append c d hcsep]
    have htake : (c ++ separator :: d).take c.length = c := List.take_left c (separator :: d)
    have hdrop : (c ++ separator :: d).drop (c.length + 1) = d := by
      have : c ++ separator :: d = (c ++ [separator]) ++ d := by simp
      rw [this]
      exact List.drop_left' (by simp)
    simp only [htake, hdrop, hcu, hdu, if_true]

/-- Witness for C9 at the concrete ids `users` (bytes of the ASCII string)
and `abc`. -/
theorem c9_key_codec_roundtrip_witness :
    encode [117, 115, 101, 114, 115] [97, 98, 99] =
      .ok ([117, 115, 101, 114, 115] ++ separator :: [97, 98, 99]) ∧
    decode ([117, 115, 101, 114, 115] ++ separator :: [97, 98, 99]) =
      some ([117, 115, 101, 114, 115], [97, 98, 99]) :=
  c9_key_codec_roundtrip [117, 115, 101, 114, 115] [97, 98, 99] rfl rfl rfl rfl

end Keys

namespace Zql

/-! ### Every lexer error message is nonempty -/

theorem str_append_ne_empty (s t : String) (h : s ≠ "") : s ++ t ≠ "" := by
  intro hc
  apply h
  have hd := congrArg String.data hc
  rw [String.data_append] at hd
  have hs : s.data = [] := by
    have := List.append_eq_nil.mp (by simpa using hd)
    exact this.1
  cases s
  simp only at hs
  simp [hs]

theorem bangErrMsg_ne (l c : Nat) : bangErrMsg l c ≠ "" := by
  unfold bangErrMsg
  repeat apply str_append_ne_empty
  decide

theorem unexpectedCharMsg_ne (ch : Char) (l c : Nat) : unexpectedCharMsg ch l c ≠ "" := by
  unfold unexpectedCharMsg
  repeat apply str_append_ne_empty
  decide

theorem stringLoop_error_msg (s xs : List Char) (l c : Nat) :
    ∀ e, stringLoop s xs l c = .error e → e.msg ≠ "" := by
  induction s, xs, l, c using stringLoop.induct with
  | case1 s l c =>
    intro e h
    rw [stringLoop.eq_1] at h
    simp only [Except.error.injEq] at h
    rw [← h]
    decide
  | case2 s rest l c =>
    intro e h
    cases rest with
    | nil =>
      rw [stringLoop.eq_2] at h
      simp at h
    | cons ch2 rest2 =>
      rw [stringLoop.eq_3] at h
      simp at h
  | case3 s l c hne =>
    intro e h
    replace h : (Except.error ⟨"unterminated string escape"⟩ :
        Except LexError (Option (Token × LexState))) = .error e := h
    simp only [Except.error.injEq] at h
    rw [← h]
    decide
  | case4 s l c ch rest m hesc pr hne pr2 ih =>
    intro e h
    rw [stringLoop.eq_3] at h
    simp only [hne, if_neg, hesc] at h
    exact ih e h
  | case5 s l c ch rest hesc hne =>
    intro e h
    replace h : (match escMap ch with
        | some m => stringLoop (s ++ [m]) rest
            (advancePos (advancePos l c '\x5c').1 (advancePos l c '\x5c').2 ch).1
            (advancePos (advancePos l c '\x5c').1 (advancePos l c '\x5c').2 ch).2
        | none => (.error ⟨"invalid string escape: " ++ String.mk ['\x5c', ch]⟩ :
            Except LexError (Option (Token × LexState)))) = .error e := h
    rw [hesc] at h
    replace h : (Except.error ⟨"invalid string escape: " ++ String.mk ['\x5c', ch]⟩ :
        Except LexError (Option (Token × LexState))) = .error e := h
    simp only [Except.error.injEq] at h
    rw [← h]
    apply str_append_ne_empty
    decide
  | case6 s ch rest l c pr h1 h2 ih =>
    intro e h
    cases rest with
    | nil =>
      rw [stringLoop.eq_2] at h
      simp only [h1, h2, if_neg] at h
      exact ih e h
    | cons ch2 rest2 =>
      rw [stringLoop.eq_3] at h
      simp only [h1, h2, if_neg] at h
      exact ih e h

theorem quotedLoop_error_msg (name xs : List Char) (l c : Nat) :
    ∀ e, quotedLoop name xs l c = .error e → e.msg ≠ "" := by
  induction name, xs, l, c using quotedLoop.induct with
  | case1 name l c =>
    intro e h
    rw [quotedLoop.eq_1] at h
    simp only [Except.error.injEq] at h
    rw [← h]
    decide
  | case2 rest l c =>
    intro e h
    replace h : (Except.error ⟨"empty quoted identifier"⟩ :
        Except LexError (Option (Token × LexState))) = .error e := h
    simp only [Except.error.injEq] at h
    rw [← h]
    decide
  | case3 name rest l c hname =>
    intro e h
    rw [quotedLoop.eq_2] at h
    simp [hname] at h
  | case4 name ch rest l c pr hch ih =>
    intro e h
    rw [quotedLoop.eq_2] at h
    simp only [hch, if_neg] at h
    exact ih e h

end Zql

namespace Zql

theorem scanString_error_msg (st : LexState) (e : LexError)
    (h : scanString st = .error e) : e.msg ≠ "" := by
  replace h : stringLoop [] (consumeOne st).input (consumeOne st).line (consumeOne st).col
      = .error e := h
  exact stringLoop_error_msg _ _ _ _ e h

theorem scanQuotedIdent_error_msg (st : LexState) (e : LexError)
    (h : scanQuotedIdent st = .error e) : e.msg ≠ "" := by
  replace h : quotedLoop [] (consumeOne st).input (consumeOne st).line (consumeOne st).col
      = .error e := h
  exact quotedLoop_error_msg _ _ _ _ e h

theorem scanVariable_error_msg (st : LexState) (e : LexError)
    (h : scanVariable st = .error e) : e.msg ≠ "" := by
  simp only [scanVariable, takeWhileSt] at h
  split at h
  · simp only [Except.error.injEq] at h
    rw [← h]
    decide
  · exact absurd h (by simp)

theorem scanParentRef_error_msg (st : LexState) (e : LexError)
    (h : scanParentRef st = .error e) : e.msg ≠ "" := by
  simp only [scanParentRef, takeWhileSt] at h
  split at h <;> split at h <;>
    first
    | (injection h with h2
       rw [← h2]
       decide)
    | injection h

theorem scanNumber_no_error (st : LexState) (e : LexError)
    (h : scanNumber st = .error e) : False := by
  simp only [scanNumber, takeWhileSt] at h
  split at h
  · split at h <;> exact absurd h (by simp)
  · exact absurd h (by simp)

theorem scanNegativeNumber_no_error (st : LexState) (e : LexError)
    (h : scanNegativeNumber st = .error e) : False := by
  simp only [scanNegativeNumber, takeWhileSt] at h
  split at h
  · split at h <;> exact absurd h (by simp)
  · exact absurd h (by simp)

theorem scanIdentOrKeyword_no_error (st : LexState) (e : LexError)
    (h : scanIdentOrKeyword st = .error e) : False := by
  simp [scanIdentOrKeyword] at h

theorem scanSymbolAux_error_msg (ch : Char) (st1 : LexState) (e : LexError)
    (h : scanSymbolAux ch st1 = .error e) : e.msg ≠ "" := by
  rw [scanSymbolAux.eq_def] at h
  split at h
  · exact absurd h (by simp)
  · exact absurd h (by simp)
  · exact absurd h (by simp)
  · exact absurd h (by simp)
  · exact absurd h (by simp)
  · exact absurd h (by simp)
  · exact absurd h (by simp)
  · exact absurd h (by simp)
  · exact absurd h (by simp)
  · exact absurd h (by simp)
  · exact absurd h (by simp)
  · exact absurd h (by simp)
  · split at h
    · exact absurd h (by simp)
    · simp only [Except.error.injEq] at h
      rw [← h]
      exact bangErrMsg_ne _ _
  · exact absurd h (by simp)
  · exact absurd h (by simp)
  · exact absurd h (by simp)
  · exact absurd h (by simp)
  · split at h
    · exact (scanNegativeNumber_no_error _ _ h).elim
    · exact absurd h (by simp)
  · simp only [Except.error.injEq] at h
    rw [← h]
    exact unexpectedCharMsg_ne _ _ _

theorem scanSymbol_error_msg (st : LexState) (e : LexError)
    (h : scanSymbol st = .error e) : e.msg ≠ "" := by
  obtain ⟨xs, l, c⟩ := st
  cases xs with
  | nil => simp [scanSymbol, nextChar] at h
  | cons ch rest =>
    have hstep : scanSymbol ⟨ch :: rest, l, c⟩ =
        scanSymbolAux ch ⟨rest, (advancePos l c ch).1, (advancePos l c ch).2⟩ := rfl
    rw [hstep] at h
    exact scanSymbolAux_error_msg _ _ _ h

theorem scan_error_msg (st : LexState) (e : LexError)
    (h : scan st = .error e) : e.msg ≠ "" := by
  replace h : (match (skipWhitespace st).input with
      | [] => (Except.ok none : Except LexError (Option (Token × LexState)))
      | c :: _ =>
        if c = '\x22' then scanString (skipWhitespace st)
        else if c = '$' then scanVariable (skipWhitespace st)
        else if c = '^' then scanParentRef (skipWhitespace st)
        else if c = '\x60' then scanQuotedIdent (skipWhitespace st)
        else if c.isDigit then scanNumber (skipWhitespace st)
        else if c.isAlpha || c = '_' then scanIdentOrKeyword (skipWhitespace st)
        else scanSymbol (skipWhitespace st)) = .error e := h
  split at h
  · exact absurd h (by simp)
  · split_ifs at h
    · exact scanString_error_msg _ _ h
    · exact scanVariable_error_msg _ _ h
    · exact scanParentRef_error_msg _ _ h
    · exact scanQuotedIdent_error_msg _ _ h
    · exact (scanNumber_no_error _ _ h).elim
    · exact (scanIdentOrKeyword_no_error _ _ h).elim
    · exact scanSymbol_error_msg _ _ h

theorem lexPump_error_msg (fuel : Nat) : ∀ (st : LexState) (e : LexError),
    lexPump fuel st = .error e → e.msg ≠ "" := by
  induction fuel with
  | zero =>
    intro st e h
    exact absurd h (by simp [lexPump])
  | succ n ih =>
    intro st e h
    replace h : (match scan st with
      | .error e2 => (.error e2 : Except LexError (List Token))
      | .ok none => .ok []
      | .ok (some (t, st')) =>
        match lexPump n st' with
        | .error e2 => .error e2
        | .ok ts => .ok (t :: ts)) = .error e := h
    cases hscan : scan st with
    | error e2 =>
      rw [hscan] at h
      replace h : (Except.error e2 : Except LexError (List Token)) = .error e := h
      simp only [Except.error.injEq] at h
      rw [← h]
      exact scan_error_msg st e2 hscan
    | ok r =>
      cases r with
      | none =>
        rw [hscan] at h
        replace h : (Except.ok [] : Except LexError (List Token)) = .error e := h
        exact absurd h (by simp)
      | some pr =>
        obtain ⟨t, st'⟩ := pr
        rw [hscan] at h
        replace h : (match lexPump n st' with
          | .error e2 => (.error e2 : Except LexError (List Token))
          | .ok ts => .ok (t :: ts)) = .error e := h
        cases hrec : lexPump n st' with
        | error e2 =>
          rw [hrec] at h
          replace h : (Except.error e2 : Except LexError (List Token)) = .error e := h
          simp only [Except.error.injEq] at h
          rw [← h]
          exact ih st' e2 hrec
        | ok ts =>
          rw [hrec] at h
          replace h : (Except.ok (t :: ts) : Except LexError (List Token)) = .error e := h
          exact absurd h (by simp)

theorem lexAll_error_msg (st : LexState) (e : LexError)
    (h : lexAll st = .error e) : e.msg ≠ "" :=
  lexPump_error_msg _ st e h

end Zql

namespace Zql

/-- C1 (counterexample): the claim that every `LexError` carries the
line/column of the offending character is false on the code. The malformed
input `"abc` (an unterminated string literal) produces the single `LexError`
whose message is exactly `unterminated string literal`: it mentions no
`line`, no `col`, and contains no digit at all, so it carries no position. -/
theorem c1_unterminated_error_has_no_position :
    tokenize (String.mk ['\x22', 'a', 'b', 'c']) = .error ⟨"unterminated string literal"⟩ ∧
    hasSubstr "unterminated string literal".data "line".data = false ∧
    hasSubstr "unterminated string literal".data "col".data = false ∧
    "unterminated string literal".data.all (fun ch => !ch.isDigit) = true :=
  ⟨rfl, rfl, rfl, rfl⟩

/-- C1 (amended): any malformed input yields exactly one `LexError` (the
collected lexer run is an `Except`, stopping at the first error) and that
error always carries a nonempty human-readable message; the line/column of
the offending character is included in the unexpected-character messages of
`scan_symbol` (shown here for the `!` error, whose message contains
`line 1, col 1`), but not in every error. -/
theorem c1_error_messages :
    (∀ (st : LexState) (e : LexError), lexAll st = .error e → e.msg ≠ "") ∧
    tokenize "!" = .error ⟨bangErrMsg 1 2⟩ ∧
    hasSubstr (bangErrMsg 1 2).data ("line 1, col 1").data = true :=
  ⟨lexAll_error_msg, rfl, rfl⟩

/-- Witness for C1 (amended): instantiating the universal conjunct at the
concrete unterminated-string input discharges its hypothesis by `rfl`. -/
theorem c1_error_messages_witness :
    (⟨"unterminated string literal"⟩ : LexError).msg ≠ "" :=
  c1_error_messages.1 ⟨['\x22', 'a', 'b', 'c'], 1, 1⟩ ⟨"unterminated string literal"⟩ rfl

end Zql

namespace Zql

theorem stringLoop_step (acc : List Char) (x : Char) (rest : List Char) (l c : Nat)
    (h1 : x ≠ '\x22') (h2 : x ≠ '\x5c') :
    stringLoop acc (x :: rest) l c =
      stringLoop (acc ++ [x]) rest (advancePos l c x).1 (advancePos l c x).2 := by
  cases rest with
  | nil => rw [stringLoop.eq_2]; simp [h1, h2]
  | cons y t => rw [stringLoop.eq_3]; simp [h1, h2]

theorem stringLoop_plain (s : List Char) : ∀ (acc rest : List Char) (l c : Nat),
    '\x22' ∉ s → '\x5c' ∉ s →
    ∃ l2 c2, stringLoop acc (s ++ '\x22' :: rest) l c =
      .ok (some (.String (String.mk (acc ++ s)), ⟨rest, l2, c2⟩)) := by
  induction s with
  | nil =>
    intro acc rest l c _ _
    refine ⟨(advancePos l c '\x22').1, (advancePos l c '\x22').2, ?_⟩
    simp only [List.nil_append, List.append_nil]
    cases rest with
    | nil => rfl
    | cons y t => rfl
  | cons x s2 ih =>
    intro acc rest l c hq hb
    have hx1 : x ≠ '\x22' := fun he => hq (by simp [he])
    have hx2 : x ≠ '\x5c' := fun he => hb (by simp [he])
    have hq2 : '\x22' ∉ s2 := fun hm => hq (by simp [hm])
    have hb2 : '\x5c' ∉ s2 := fun hm => hb (by simp [hm])
    obtain ⟨l2, c2, hrec⟩ := ih (acc ++ [x]) rest (advancePos l c x).1 (advancePos l c x).2 hq2 hb2
    refine ⟨l2, c2, ?_⟩
    rw [List.cons_append, stringLoop_step acc x (s2 ++ '\x22' :: rest) l c hx1 hx2, hrec]
    simp

theorem quotedLoop_step (name : List Char) (x : Char) (rest : List Char) (l c : Nat)
    (h1 : x ≠ '\x60') :
    quotedLoop name (x :: rest) l c =
      quotedLoop (name ++ [x]) rest (advancePos l c x).1 (advancePos l c x).2 := by
  rw [quotedLoop.eq_2]
  simp [h1]

theorem quotedLoop_plain (s : List Char) : ∀ (name rest : List Char) (l c : Nat),
    '\x60' ∉ s → name ++ s ≠ [] →
    ∃ l2 c2, quotedLoop name (s ++ '\x60' :: rest) l c =
      .ok (some (.Ident (String.mk (name ++ s)), ⟨rest, l2, c2⟩)) := by
  induction s with
  | nil =>
    intro name rest l c _ hne
    have hname : name ≠ [] := by simpa using hne
    refine ⟨(advancePos l c '\x60').1, (advancePos l c '\x60').2, ?_⟩
    rw [List.nil_append, quotedLoop.eq_2]
    simp [hname]
  | cons x s2 ih =>
    intro name rest l c hb hne
    have hx1 : x ≠ '\x60' := fun he => hb (by simp [he])
    have hb2 : '\x60' ∉ s2 := fun hm => hb (by simp [hm])
    have hne2 : (name ++ [x]) ++ s2 ≠ [] := by simp
    obtain ⟨l2, c2, hrec⟩ := ih (name ++ [x]) rest (advancePos l c x).1 (advancePos l c x).2 hb2 hne2
    refine ⟨l2, c2, ?_⟩
    rw [List.cons_append, quotedLoop_step name x (s2 ++ '\x60' :: rest) l c hx1, hrec]
    simp

/-- C10: a double-quoted string literal may span multiple lines — any content
without a quote or backslash character, including raw newlines, is accepted
and preserved verbatim in the `String` token payload. -/
theorem c10_string_content_verbatim (s : List Char) (h1 : '\x22' ∉ s) (h2 : '\x5c' ∉ s) :
    lexAll ⟨'\x22' :: s ++ ['\x22'], 1, 1⟩ = .ok [.String (String.mk s)] := by
  obtain ⟨l2, c2, hloop⟩ := stringLoop_plain s [] [] 1 2 h1 h2
  have hscan : scan ⟨'\x22' :: s ++ ['\x22'], 1, 1⟩ = stringLoop [] (s ++ '\x22' :: []) 1 2 := rfl
  rw [lexAll_unfold, hscan, hloop]
  show (match lexAll ⟨[], l2, c2⟩ with
    | .error e => (.error e : Except LexError (List Token))
    | .ok ts => .ok (Token.String (String.mk ([] ++ s)) :: ts)) = .ok [.String (String.mk s)]
  rw [lexAll_nil]
  simp

/-- Witness for C10 at the content `a`-newline-`b`: the raw newline is not an
error and survives verbatim in the token payload. -/
theorem c10_string_content_verbatim_witness :
    lexAll ⟨'\x22' :: ['a', '\n', 'b'] ++ ['\x22'], 1, 1⟩ =
      .ok [.String (String.mk ['a', '\n', 'b'])] :=
  c10_string_content_verbatim ['a', '\n', 'b'] (by decide) (by decide)

/-- C4 (counterexample): an empty pair of backticks is not tokenized as an
`Ident` with empty content — it is a `LexError`. -/
theorem c4_empty_backticks_error :
    lexAll ⟨['\x60', '\x60'], 1, 1⟩ = .error ⟨"empty quoted identifier"⟩ := rfl

/-- C4 (amended): for every nonempty content without a backtick, the
backtick-quoted identifier tokenizes as `Ident` carrying exactly that content
— never as a `Keyword`, even when the content spells a reserved word; the
empty content is a `LexError` (see the counterexample). -/
theorem c4_backtick_always_ident (s : List Char) (hne : s ≠ []) (hnb : '\x60' ∉ s) :
    lexAll ⟨'\x60' :: s ++ ['\x60'], 1, 1⟩ = .ok [.Ident (String.mk s)] ∧
    (Token.Ident (String.mk s)).isKeywordTok = false := by
  constructor
  · obtain ⟨l2, c2, hloop⟩ := quotedLoop_plain s [] [] 1 2 hnb (by simpa using hne)
    have hscan : scan ⟨'\x60' :: s ++ ['\x60'], 1, 1⟩ = quotedLoop [] (s ++ '\x60' :: []) 1 2 := rfl
    rw [lexAll_unfold, hscan, hloop]
    show (match lexAll ⟨[], l2, c2⟩ with
      | .error e => (.error e : Except LexError (List Token))
      | .ok ts => .ok (Token.Ident (String.mk ([] ++ s)) :: ts)) = .ok [.Ident (String.mk s)]
    rw [lexAll_nil]
    simp
  · rfl

/-- Witness for C4 at the reserved word `where`: backtick-quoting defeats
keyword recognition. -/
theorem c4_backtick_always_ident_witness :
    lexAll ⟨'\x60' :: "where".data ++ ['\x60'], 1, 1⟩ = .ok [.Ident (String.mk "where".data)] ∧
    (Token.Ident (String.mk "where".data)).isKeywordTok = false :=
  c4_backtick_always_ident "where".data (by decide) (by decide)

end Zql

namespace Zql

/-- C6: inside a double-quoted string literal, exactly the five escape
sequences of `escMap` (quote, backslash, `n`, `t`, `r`) are accepted,
producing the escape table's character; any other escape character is the
`invalid string escape` `LexError`, and reaching the end of input before the
closing quote (with or without a pending backslash) is a `LexError` too.
The last two conjuncts show the same dichotomy at an arbitrary position of
the string-literal scanning loop, with an arbitrary accumulated payload. -/
theorem c6_string_escapes (c : Char) :
    (∀ m, escMap c = some m → lexAll ⟨['\x22', '\x5c', c, '\x22'], 1, 1⟩ =
        .ok [.String (String.mk [m])]) ∧
    (escMap c = none → lexAll ⟨['\x22', '\x5c', c, '\x22'], 1, 1⟩ =
        .error ⟨"invalid string escape: " ++ String.mk ['\x5c', c]⟩) ∧
    lexAll ⟨['\x22', 'a', 'b', 'c'], 1, 1⟩ = .error ⟨"unterminated string literal"⟩ ∧
    lexAll ⟨['\x22', '\x5c'], 1, 1⟩ = .error ⟨"unterminated string escape"⟩ ∧
    (∀ (acc rest : List Char) (l c0 : Nat) (m : Char), escMap c = some m →
      stringLoop acc ('\x5c' :: c :: rest) l c0 =
        stringLoop (acc ++ [m]) rest
          (advancePos (advancePos l c0 '\x5c').1 (advancePos l c0 '\x5c').2 c).1
          (advancePos (advancePos l c0 '\x5c').1 (advancePos l c0 '\x5c').2 c).2) ∧
    (∀ (acc rest : List Char) (l c0 : Nat), escMap c = none →
      stringLoop acc ('\x5c' :: c :: rest) l c0 =
        .error ⟨"invalid string escape: " ++ String.mk ['\x5c', c]⟩) := by
  have hscan : scan ⟨['\x22', '\x5c', c, '\x22'], 1, 1⟩ =
      (match escMap c with
        | some m2 => stringLoop [m2] ['\x22']
            (advancePos (advancePos 1 2 '\x5c').1 (advancePos 1 2 '\x5c').2 c).1
            (advancePos (advancePos 1 2 '\x5c').1 (advancePos 1 2 '\x5c').2 c).2
        | none => .error ⟨"invalid string escape: " ++ String.mk ['\x5c', c]⟩) := rfl
  refine ⟨?_, ?_, rfl, rfl, ?_, ?_⟩
  · intro m hm
    rw [lexAll_unfold, hscan, hm]
    rfl
  · intro hm
    rw [lexAll_unfold, hscan, hm]
  · intro acc rest l c0 m hm
    have hstep : stringLoop acc ('\x5c' :: c :: rest) l c0 =
        (match escMap c with
          | some m2 => stringLoop (acc ++ [m2]) rest
              (advancePos (advancePos l c0 '\x5c').1 (advancePos l c0 '\x5c').2 c).1
              (advancePos (advancePos l c0 '\x5c').1 (advancePos l c0 '\x5c').2 c).2
          | none => .error ⟨"invalid string escape: " ++ String.mk ['\x5c', c]⟩) := rfl
    rw [hstep, hm]
  · intro acc rest l c0 hm
    have hstep : stringLoop acc ('\x5c' :: c :: rest) l c0 =
        (match escMap c with
          | some m2 => stringLoop (acc ++ [m2]) rest
              (advancePos (advancePos l c0 '\x5c').1 (advancePos l c0 '\x5c').2 c).1
              (advancePos (advancePos l c0 '\x5c').1 (advancePos l c0 '\x5c').2 c).2
          | none => .error ⟨"invalid string escape: " ++ String.mk ['\x5c', c]⟩) := rfl
    rw [hstep, hm]

/-- Witness for C6: `\n` maps to the newline character, and the unsupported
escape `\x` is the `invalid string escape` error. -/
theorem c6_string_escapes_witness :
    lexAll ⟨['\x22', '\x5c', 'n', '\x22'], 1, 1⟩ = .ok [.String (String.mk ['\n'])] ∧
    lexAll ⟨['\x22', '\x5c', 'x', '\x22'], 1, 1⟩ =
      .error ⟨"invalid string escape: " ++ String.mk ['\x5c', 'x']⟩ :=
  ⟨(c6_string_escapes 'n').1 '\n' (by decide), (c6_string_escapes 'x').2.1 (by decide)⟩

theorem tryFrom_some_mem (s : String) (k : Keyword)
    (h : Keyword.tryFrom s = some k) : s ∈ specKeywordSpellings := by
  unfold Keyword.tryFrom at h
  by_cases h1 : s = "and"
  · rw [h1]
    decide
  rw [if_neg h1] at h
  by_cases h2 : s = "or"
  · rw [h2]
    decide
  rw [if_neg h2] at h
  by_cases h3 : s = "not"
  · rw [h3]
    decide
  rw [if_neg h3] at h
  by_cases h4 : s = "in"
  · rw [h4]
    decide
  rw [if_neg h4] at h
  by_cases h5 : s = "between"
  · rw [h5]
    decide
  rw [if_neg h5] at h
  by_cases h6 : s = "like"
  · rw [h6]
    decide
  rw [if_neg h6] at h
  by_cases h7 : s = "regex"
  · rw [h7]
    decide
  rw [if_neg h7] at h
  by_cases h8 : s = "is"
  · rw [h8]
    decide
  rw [if_neg h8] at h
  by_cases h9 : s = "exists"
  · rw [h9]
    decide
  rw [if_neg h9] at h
  by_cases h10 : s = "contains"
  · rw [h10]
    decide
  rw [if_neg h10] at h
  by_cases h11 : s = "containsAny"
  · rw [h11]
    decide
  rw [if_neg h11] at h
  by_cases h12 : s = "containsAll"
  · rw [h12]
    decide
  rw [if_neg h12] at h
  by_cases h13 : s = "where"
  · rw [h13]
    decide
  rw [if_neg h13] at h
  by_cases h14 : s = "order"
  · rw [h14]
    decide
  rw [if_neg h14] at h
  by_cases h15 : s = "skip"
  · rw [h15]
    decide
  rw [if_neg h15] at h
  by_cases h16 : s = "limit"
  · rw [h16]
    decide
  rw [if_neg h16] at h
  by_cases h17 : s = "returning"
  · rw [h17]
    decide
  rw [if_neg h17] at h
  by_cases h18 : s = "asc"
  · rw [h18]
    decide
  rw [if_neg h18] at h
  by_cases h19 : s = "desc"
  · rw [h19]
    decide
  rw [if_neg h19] at h
  by_cases h20 : s = "true"
  · rw [h20]
    decide
  rw [if_neg h20] at h
  by_cases h21 : s = "false"
  · rw [h21]
    decide
  rw [if_neg h21] at h
  by_cases h22 : s = "null"
  · rw [h22]
    decide
  rw [if_neg h22] at h
  exact absurd h (by simp)

/-- C5: an unquoted scanned identifier becomes a `Keyword` token if and only
if its text equals (case-sensitively) one of the 22 reserved spellings of the
specification, and otherwise stays an `Ident` with the same text —
`identLikeToken` is exactly the classification step of
`scan_ident_or_keyword`. The two concrete conjuncts exercise the full lexer
on a reserved word and on a near miss. -/
theorem c5_keyword_recognition :
    (∀ s : String, ((identLikeToken s).isKeywordTok = true ↔ s ∈ specKeywordSpellings) ∧
      (s ∉ specKeywordSpellings → identLikeToken s = .Ident s)) ∧
    tokenize "where" = .ok [.Keyword .Where] ∧
    tokenize "wherex" = .ok [.Ident "wherex"] := by
  refine ⟨?_, rfl, rfl⟩
  intro s
  have hnone : s ∉ specKeywordSpellings → Keyword.tryFrom s = none := by
    intro hnotmem
    cases hk : Keyword.tryFrom s with
    | none => rfl
    | some k => exact absurd (tryFrom_some_mem s k hk) hnotmem
  constructor
  · constructor
    · intro h
      by_contra hnotmem
      rw [identLikeToken, hnone hnotmem] at h
      simp [Token.isKeywordTok] at h
    · intro hmem
      fin_cases hmem <;> rfl
  · intro hnotmem
    rw [identLikeToken, hnone hnotmem]

/-- Witness for C5: `where` is classified as a keyword, `wherex` stays an
identifier. -/
theorem c5_keyword_recognition_witness :
    (identLikeToken "where").isKeywordTok = true ∧
    identLikeToken "wherex" = .Ident "wherex" :=
  ⟨(c5_keyword_recognition.1 "where").1.mpr (by decide),
    (c5_keyword_recognition.1 "wherex").2 (by decide)⟩

/-- C7: rendering any punctuation or keyword token with the `Display`
implementation and lexing the rendered text yields exactly that token back. -/
theorem c7_display_relex_roundtrip (t : Token) (h : t.isPunctOrKeyword = true) :
    tokenize t.display = .ok [t] := by
  cases t
  case Number s => simp [Token.isPunctOrKeyword] at h
  case String s => simp [Token.isPunctOrKeyword] at h
  case Ident s => simp [Token.isPunctOrKeyword] at h
  case Variable s => simp [Token.isPunctOrKeyword] at h
  case ParentRef s => simp [Token.isPunctOrKeyword] at h
  case GrandparentRef s => simp [Token.isPunctOrKeyword] at h
  case Keyword k => cases k <;> rfl
  all_goals rfl

/-- Witness for C7 at the two-character token `!=`. -/
theorem c7_display_relex_roundtrip_witness :
    tokenize (Token.NotEqual.display) = .ok [.NotEqual] :=
  c7_display_relex_roundtrip .NotEqual rfl

end Zql
